import Mathlib

/-!
Verification of the execution gateway in `fast_api_custom.py`: the runv3 SSE
streaming bridge (pump task, bridge queue, heartbeat, cancellation shielding),
the duplex websocket handler, the runner reload/invalidation path, the trace
correlation store, the evaluation batch endpoint, and session listing.
Each Python function is shallowly embedded as an executable Lean definition;
the theorems below settle the specified properties against those definitions.
-/

namespace ArthaGateway

/-- A function call carried by one part of the content of an event, as inspected by
the runv3 bridge: `part.get("functionCall", {}).get("name")` and
`part["functionCall"].get("args", {}).get("url", "")`. -/
structure FunctionCallM where
  name : String
  argsUrl : Option String
deriving DecidableEq, Repr

/-- One part of the content of an event (`item_dict["content"]["parts"]` entries). -/
structure PartM where
  functionCall : Option FunctionCallM
deriving DecidableEq, Repr

/-- An execution event as consumed by the gateway (`google.adk` `Event`): an
event id, an authoring role, content parts, and its serialized form
(`model_dump_json(exclude_none=True, by_alias=True)`), kept abstract as a
string. -/
structure Ev where
  id : String
  author : String
  parts : List PartM
  payload : String
deriving DecidableEq, Repr

/-- The loop in `event_generator` (runv3) that scans the parts of one event for
a `render_session` function call and extracts its `url` argument, with `""` as
the default (`args.get("url", "")`); it breaks at the first match. -/
def renderUrlOfParts : List PartM → String
  | [] => ""
  | p :: rest =>
    match p.functionCall with
    | some fc => if fc.name = "render_session" then fc.argsUrl.getD "" else renderUrlOfParts rest
    | none => renderUrlOfParts rest

/-- Wire frames emitted on the runv3 SSE stream (`ServerSentEvent` values):
the `stream_start` frame carrying the session id, the keep-alive comment, the
`render_session` control frame, the regular `agent_event` frame, the
`stream_complete` frame, and the `error` frame. -/
inductive Frame where
  | streamStart (sessionId : String)
  | heartbeat
  | renderSession (url : String) (id : String)
  | agentEvent (payload : String) (id : String)
  | streamComplete
  | errorFrame (msg : String)
deriving DecidableEq, Repr

/-- How the runv3 `event_generator` frames one dequeued event: a truthy
(non-empty) `render_session_url` yields the `render_session` control frame,
otherwise the event is sent as a regular `agent_event`. -/
def frameOfEvent (e : Ev) : Frame :=
  let url := renderUrlOfParts e.parts
  if url ≠ "" then Frame.renderSession url e.id else Frame.agentEvent e.payload e.id

def isContentFrame : Frame → Bool
  | Frame.renderSession _ _ => true
  | Frame.agentEvent _ _ => true
  | _ => false

def isErrorFrame : Frame → Bool
  | Frame.errorFrame _ => true
  | _ => false

def isStreamStartFrame : Frame → Bool
  | Frame.streamStart _ => true
  | _ => false

def isStreamCompleteFrame : Frame → Bool
  | Frame.streamComplete => true
  | _ => false

/-- `HEARTBEAT_EVERY = 20  # seconds` in `agent_run_v3`. -/
def HEARTBEAT_EVERY : Nat := 20

/-- One iteration of the runv3 bridge loop either times out
(`asyncio.wait_for(queue.get(), timeout=HEARTBEAT_EVERY)` raised
`asyncio.TimeoutError`, i.e. no queue item arrived within `HEARTBEAT_EVERY`
seconds) or delivers the next queue item. -/
inductive Arrival where
  | timeout
  | next
deriving DecidableEq, Repr

/-- Number of deliveries in a bridge schedule. -/
def nextCount : List Arrival → Nat
  | [] => 0
  | Arrival.next :: r => nextCount r + 1
  | Arrival.timeout :: r => nextCount r

/-- The `while True` loop of the runv3 `event_generator`: on timeout yield the
keep-alive comment and continue; on the `None` sentinel break and yield the
`stream_complete` frame; otherwise frame and yield the event. An exhausted
schedule (or an empty queue on delivery) models the generator still blocked
awaiting the queue: no further frames observed. -/
def genLoop : List Arrival → List (Option Ev) → List Frame
  | [], _ => []
  | Arrival.timeout :: sched, q => Frame.heartbeat :: genLoop sched q
  | Arrival.next :: sched, q =>
    match q with
    | [] => []
    | none :: _ => [Frame.streamComplete]
    | some e :: rest => frameOfEvent e :: genLoop sched rest

/-- The full runv3 `event_generator`: the `stream_start` frame carrying the
session id is yielded first, before the bridge loop starts. -/
def eventGenerator (sessionId : String) (sched : List Arrival) (q : List (Option Ev)) : List Frame :=
  Frame.streamStart sessionId :: genLoop sched q

/-- Arguments of the constructor call
`EventClass(type="agent_error", message=str(e))` in `pump_agent`. -/
structure EventCtorArgs where
  typeField : Option String
  messageField : Option String
  author : Option String
deriving DecidableEq, Repr

/-- Modelled from the spec: the `google.adk` `Event` pydantic model (outside
src/). Per §3 an Event is "identified by an event id and an authoring role":
the constructor validates its arguments and fails when the required authoring
role is absent, so `Event(type="agent_error", message=str(e))` raises
`ValidationError` (caught by the bare `except` in `pump_agent`). -/
def eventClassMk (args : EventCtorArgs) : Option Ev :=
  match args.author with
  | some a => some { id := "", author := a, parts := [], payload := "" }
  | none => none

/-- Outcome of `runner.run_async` inside `pump_agent`: either the iteration
completes after yielding the listed events, or it raises after yielding them. -/
inductive AgentRun where
  | completes (events : List Ev)
  | raises (events : List Ev) (msg : String)
deriving DecidableEq, Repr

/-- The sequence of items `pump_agent` puts on the bridge queue: each yielded
event, then — on an exception — the attempted error event (whose construction
falls back to `queue.put(None)` when it fails) — and finally the `None`
sentinel from the `finally` block. -/
def pumpQueueItems : AgentRun → List (Option Ev)
  | AgentRun.completes evs => evs.map some ++ [none]
  | AgentRun.raises evs msg =>
    evs.map some ++
      (match eventClassMk { typeField := some "agent_error", messageField := some msg, author := none } with
       | some e => [some e, none]
       | none => [none, none])

lemma frameOfEvent_ne_heartbeat (e : Ev) : (frameOfEvent e != Frame.heartbeat) = true := by
  simp only [frameOfEvent]
  split <;> simp

lemma frameOfEvent_ne_streamComplete (e : Ev) : (frameOfEvent e != Frame.streamComplete) = true := by
  simp only [frameOfEvent]
  split <;> simp

lemma isErrorFrame_frameOfEvent (e : Ev) : isErrorFrame (frameOfEvent e) = false := by
  simp only [frameOfEvent]
  split <;> simp [isErrorFrame]

lemma isStreamStartFrame_frameOfEvent (e : Ev) : isStreamStartFrame (frameOfEvent e) = false := by
  simp only [frameOfEvent]
  split <;> simp [isStreamStartFrame]

lemma isStreamCompleteFrame_frameOfEvent (e : Ev) : isStreamCompleteFrame (frameOfEvent e) = false := by
  simp only [frameOfEvent]
  split <;> simp [isStreamCompleteFrame]

/-- On a queue holding the produced events followed by the sentinel, the
non-heartbeat frames of the bridge loop are exactly the framed events in
production order followed by `stream_complete`, provided the schedule delivers
often enough to drain the queue. -/
lemma genLoop_filter_heartbeat :
    ∀ (sched : List Arrival) (evs : List Ev) (tail : List (Option Ev)),
      evs.length + 1 ≤ nextCount sched →
      (genLoop sched (evs.map some ++ none :: tail)).filter (fun f => f != Frame.heartbeat)
        = evs.map frameOfEvent ++ [Frame.streamComplete] := by
  intro sched
  induction sched with
  | nil => intro evs tail h; simp [nextCount] at h
  | cons a sched ih =>
    intro evs tail h
    cases a with
    | timeout =>
      simp only [genLoop, List.filter]
      simpa [nextCount] using ih evs tail (by simpa [nextCount] using h)
    | next =>
      cases evs with
      | nil => simp [genLoop]
      | cons e evs =>
        simp only [List.map, List.cons_append, genLoop, List.filter,
          frameOfEvent_ne_heartbeat]
        have h2 : evs.length + 1 ≤ nextCount sched := by
          simp [nextCount] at h
          omega
        simpa using ih evs tail h2

/-- Nothing is emitted after the `stream_complete` frame: from its first
occurrence on, the bridge output is exactly `[stream_complete]`. -/
lemma genLoop_dropWhile_streamComplete :
    ∀ (sched : List Arrival) (evs : List Ev) (tail : List (Option Ev)),
      evs.length + 1 ≤ nextCount sched →
      (genLoop sched (evs.map some ++ none :: tail)).dropWhile (fun f => f != Frame.streamComplete)
        = [Frame.streamComplete] := by
  intro sched
  induction sched with
  | nil => intro evs tail h; simp [nextCount] at h
  | cons a sched ih =>
    intro evs tail h
    cases a with
    | timeout =>
      simp only [genLoop, List.dropWhile]
      simpa [nextCount] using ih evs tail (by simpa [nextCount] using h)
    | next =>
      cases evs with
      | nil => simp [genLoop, List.dropWhile]
      | cons e evs =>
        simp only [List.map, List.cons_append, genLoop, List.dropWhile,
          frameOfEvent_ne_streamComplete]
        have h2 : evs.length + 1 ≤ nextCount sched := by
          simp [nextCount] at h
          omega
        simpa using ih evs tail h2

lemma genLoop_countP_streamStart :
    ∀ (sched : List Arrival) (evs : List Ev) (tail : List (Option Ev)),
      (genLoop sched (evs.map some ++ none :: tail)).countP isStreamStartFrame = 0 := by
  intro sched
  induction sched with
  | nil => intro evs tail; simp [genLoop]
  | cons a sched ih =>
    intro evs tail
    cases a with
    | timeout => simp [genLoop, List.countP_cons, isStreamStartFrame, ih evs tail]
    | next =>
      cases evs with
      | nil => simp [genLoop, List.countP_cons, isStreamStartFrame]
      | cons e evs =>
        simp [genLoop, List.countP_cons, isStreamStartFrame_frameOfEvent, ih evs tail]

lemma genLoop_countP_streamComplete :
    ∀ (sched : List Arrival) (evs : List Ev) (tail : List (Option Ev)),
      evs.length + 1 ≤ nextCount sched →
      (genLoop sched (evs.map some ++ none :: tail)).countP isStreamCompleteFrame = 1 := by
  intro sched
  induction sched with
  | nil => intro evs tail h; simp [nextCount] at h
  | cons a sched ih =>
    intro evs tail h
    cases a with
    | timeout =>
      have h2 : evs.length + 1 ≤ nextCount sched := by simpa [nextCount] using h
      simp [genLoop, List.countP_cons, isStreamCompleteFrame, ih evs tail h2]
    | next =>
      cases evs with
      | nil => simp [genLoop, List.countP_cons, isStreamCompleteFrame]
      | cons e evs =>
        have h2 : evs.length + 1 ≤ nextCount sched := by
          simp [nextCount] at h
          omega
        simp [genLoop, List.countP_cons, isStreamCompleteFrame_frameOfEvent, ih evs tail h2]

lemma genLoop_no_error_frame :
    ∀ (sched : List Arrival) (evs : List Ev) (tail : List (Option Ev)),
      (genLoop sched (evs.map some ++ none :: tail)).countP isErrorFrame = 0 := by
  intro sched
  induction sched with
  | nil => intro evs tail; simp [genLoop]
  | cons a sched ih =>
    intro evs tail
    cases a with
    | timeout => simp [genLoop, List.countP_cons, isErrorFrame, ih evs tail]
    | next =>
      cases evs with
      | nil => simp [genLoop, List.countP_cons, isErrorFrame]
      | cons e evs =>
        simp [genLoop, List.countP_cons, isErrorFrame_frameOfEvent, ih evs tail]

/-- C4 -- For a runv3 stream whose execution produces N content events and
completes normally, the client observes exactly one `stream_start` frame
(first, carrying the session id), then the N content frames in production
order, then exactly one `stream_complete` frame, and nothing after
`stream_complete`; heartbeats are the only other frames. -/
theorem runv3_normal_stream_shape (sessionId : String) (evs : List Ev)
    (sched : List Arrival) (h : evs.length + 1 ≤ nextCount sched) :
    (eventGenerator sessionId sched (pumpQueueItems (AgentRun.completes evs))).filter
        (fun f => f != Frame.heartbeat)
      = Frame.streamStart sessionId :: evs.map frameOfEvent ++ [Frame.streamComplete]
    ∧ (eventGenerator sessionId sched (pumpQueueItems (AgentRun.completes evs))).head?
      = some (Frame.streamStart sessionId)
    ∧ (eventGenerator sessionId sched (pumpQueueItems (AgentRun.completes evs))).dropWhile
        (fun f => f != Frame.streamComplete) = [Frame.streamComplete]
    ∧ (eventGenerator sessionId sched (pumpQueueItems (AgentRun.completes evs))).countP
        isStreamStartFrame = 1
    ∧ (eventGenerator sessionId sched (pumpQueueItems (AgentRun.completes evs))).countP
        isStreamCompleteFrame = 1 := by
  have hq : pumpQueueItems (AgentRun.completes evs) = evs.map some ++ none :: ([] : List (Option Ev)) := by
    simp [pumpQueueItems]
  rw [eventGenerator, hq]
  have hssb : (Frame.streamStart sessionId != Frame.heartbeat) = true := by simp
  have hssc : (Frame.streamStart sessionId != Frame.streamComplete) = true := by simp
  refine ⟨?_, ?_, ?_, ?_, ?_⟩
  · simp [List.filter_cons, hssb, genLoop_filter_heartbeat sched evs [] h]
  · simp
  · simp [List.dropWhile_cons, hssc, genLoop_dropWhile_streamComplete sched evs [] h]
  · simp [List.countP_cons, isStreamStartFrame, genLoop_countP_streamStart sched evs []]
  · simp [List.countP_cons, isStreamCompleteFrame, genLoop_countP_streamComplete sched evs [] h]

def sampleEv1 : Ev := { id := "e1", author := "root", parts := [], payload := "p1" }

def sampleEv2 : Ev :=
  { id := "e2", author := "root",
    parts := [{ functionCall := some { name := "render_session", argsUrl := some "u2" } }],
    payload := "p2" }

theorem runv3_normal_stream_shape_w :
    (eventGenerator "s1" [Arrival.next, Arrival.timeout, Arrival.next, Arrival.next]
        (pumpQueueItems (AgentRun.completes [sampleEv1, sampleEv2]))).filter
        (fun f => f != Frame.heartbeat)
      = Frame.streamStart "s1" :: [sampleEv1, sampleEv2].map frameOfEvent ++ [Frame.streamComplete]
    ∧ (eventGenerator "s1" [Arrival.next, Arrival.timeout, Arrival.next, Arrival.next]
        (pumpQueueItems (AgentRun.completes [sampleEv1, sampleEv2]))).head?
      = some (Frame.streamStart "s1")
    ∧ (eventGenerator "s1" [Arrival.next, Arrival.timeout, Arrival.next, Arrival.next]
        (pumpQueueItems (AgentRun.completes [sampleEv1, sampleEv2]))).dropWhile
        (fun f => f != Frame.streamComplete) = [Frame.streamComplete]
    ∧ (eventGenerator "s1" [Arrival.next, Arrival.timeout, Arrival.next, Arrival.next]
        (pumpQueueItems (AgentRun.completes [sampleEv1, sampleEv2]))).countP
        isStreamStartFrame = 1
    ∧ (eventGenerator "s1" [Arrival.next, Arrival.timeout, Arrival.next, Arrival.next]
        (pumpQueueItems (AgentRun.completes [sampleEv1, sampleEv2]))).countP
        isStreamCompleteFrame = 1 :=
  runv3_normal_stream_shape "s1" [sampleEv1, sampleEv2]
    [Arrival.next, Arrival.timeout, Arrival.next, Arrival.next] (by decide)

/-- C6 -- When no queue item arrives within `HEARTBEAT_EVERY` (20) seconds,
the bridge loop emits the keep-alive comment frame before whatever frame comes
next, and that frame is not a content frame. -/
theorem runv3_heartbeat_emitted_on_timeout (sched : List Arrival) (q : List (Option Ev)) :
    genLoop (Arrival.timeout :: sched) q = Frame.heartbeat :: genLoop sched q
    ∧ isContentFrame Frame.heartbeat = false
    ∧ HEARTBEAT_EVERY = 20 := by
  refine ⟨rfl, rfl, rfl⟩

/-- C2 counterexample -- an execution that raises immediately: the runv3
client observes no `error` frame at all, and a `stream_complete` frame is
emitted instead, contradicting the claim that exactly one terminal error frame
is observed and that no `stream_complete` is substituted for it. -/
theorem runv3_error_frame_cex :
    (eventGenerator "s1" [Arrival.next]
        (pumpQueueItems (AgentRun.raises [] "boom"))).countP isErrorFrame = 0
    ∧ Frame.streamComplete ∈
        eventGenerator "s1" [Arrival.next] (pumpQueueItems (AgentRun.raises [] "boom")) := by
  decide

/-- C2 amended -- When the agent execution raises, `pump_agent` fails to build
the error event (the Event model rejects the arguments), falls back to the
`None` sentinel, and the `finally` block enqueues the sentinel again; the
client therefore observes no error frame: the stream carries `stream_start`,
the frames of the events produced before the failure, then `stream_complete`,
and closes normally. -/
theorem runv3_error_closes_with_stream_complete (sessionId msg : String) (evs : List Ev)
    (sched : List Arrival) (h : evs.length + 1 ≤ nextCount sched) :
    (eventGenerator sessionId sched (pumpQueueItems (AgentRun.raises evs msg))).filter
        (fun f => f != Frame.heartbeat)
      = Frame.streamStart sessionId :: evs.map frameOfEvent ++ [Frame.streamComplete]
    ∧ (eventGenerator sessionId sched (pumpQueueItems (AgentRun.raises evs msg))).countP
        isErrorFrame = 0 := by
  have hq : pumpQueueItems (AgentRun.raises evs msg)
      = evs.map some ++ none :: ([none] : List (Option Ev)) := by
    simp [pumpQueueItems, eventClassMk]
  rw [eventGenerator, hq]
  have hssb : (Frame.streamStart sessionId != Frame.heartbeat) = true := by simp
  refine ⟨?_, ?_⟩
  · simp [List.filter_cons, hssb, genLoop_filter_heartbeat sched evs [none] h]
  · simp [List.countP_cons, isErrorFrame, genLoop_no_error_frame sched evs [none]]

theorem runv3_error_closes_with_stream_complete_w :
    (eventGenerator "s1" [Arrival.timeout, Arrival.next, Arrival.next]
        (pumpQueueItems (AgentRun.raises [sampleEv1] "boom"))).filter
        (fun f => f != Frame.heartbeat)
      = Frame.streamStart "s1" :: [sampleEv1].map frameOfEvent ++ [Frame.streamComplete]
    ∧ (eventGenerator "s1" [Arrival.timeout, Arrival.next, Arrival.next]
        (pumpQueueItems (AgentRun.raises [sampleEv1] "boom"))).countP
        isErrorFrame = 0 :=
  runv3_error_closes_with_stream_complete "s1" "boom" [sampleEv1]
    [Arrival.timeout, Arrival.next, Arrival.next] (by decide)

/-- State of one runv3 request: the shielded pump task (events still to be
produced by `runner.run_async`, events already produced, the `pumpDone` flag
set once the `finally` block has run), the bridge queue, the consumer
generator liveness, and whether the `finally` block of the consumer has called
`pump_task.cancel()`. -/
structure PumpState where
  pending : List Ev
  produced : List Ev
  queue : List (Option Ev)
  pumpDone : Bool
  consumerAlive : Bool
  cancelRequested : Bool
deriving DecidableEq, Repr

/-- Interleaved small steps of the runv3 pump task and its consumer.
`pump_agent` runs its entire body inside `anyio.CancelScope(shield=True)`:
a cancellation requested by `pump_task.cancel()` is deferred past the end of
the shielded body, so a pending cancel request never disables a producer
transition — `produce` and `finishPump` are enabled regardless of
`consumerAlive` and `cancelRequested`. `consumerExit` covers both a client
disconnect (`asyncio.CancelledError` in `event_generator`) and normal consumer
completion; its teardown (`finally`) requests cancellation of the pump task
exactly when the pump is not yet done. -/
inductive PumpStep : PumpState → PumpState → Prop where
  | produce (s : PumpState) (e : Ev) (rest : List Ev) :
      s.pending = e :: rest → s.pumpDone = false →
      PumpStep s ⟨rest, s.produced ++ [e], s.queue ++ [some e], false,
        s.consumerAlive, s.cancelRequested⟩
  | finishPump (s : PumpState) :
      s.pending = [] → s.pumpDone = false →
      PumpStep s ⟨[], s.produced, s.queue ++ [none], true,
        s.consumerAlive, s.cancelRequested⟩
  | dequeue (s : PumpState) (x : Option Ev) (rest : List (Option Ev)) :
      s.queue = x :: rest → s.consumerAlive = true →
      PumpStep s ⟨s.pending, s.produced, rest, s.pumpDone, true, s.cancelRequested⟩
  | consumerExit (s : PumpState) :
      s.consumerAlive = true →
      PumpStep s ⟨s.pending, s.produced, s.queue, s.pumpDone, false,
        s.cancelRequested || !s.pumpDone⟩

/-- Reflexive-transitive closure of `PumpStep`. -/
inductive PumpReach : PumpState → PumpState → Prop where
  | refl (s : PumpState) : PumpReach s s
  | tail {s t u : PumpState} : PumpReach s t → PumpStep t u → PumpReach s u

/-- Initial state of a runv3 request whose execution will produce `events`:
nothing produced, empty queue, pump running, consumer alive, no cancel
requested. -/
def initPump (events : List Ev) : PumpState :=
  ⟨events, [], [], false, true, false⟩

lemma pump_invariant (events : List Ev) (s : PumpState)
    (h : PumpReach (initPump events) s) :
    s.produced ++ s.pending = events ∧ (s.pumpDone = true → s.pending = []) := by
  induction h with
  | refl => simp [initPump]
  | tail _ hs ih =>
    cases hs with
    | produce e rest hp hd =>
      refine ⟨?_, by intro hfalse; simp at hfalse⟩
      have := ih.1
      rw [hp] at this
      simpa [List.append_assoc] using this
    | finishPump hp hd =>
      refine ⟨?_, fun _ => rfl⟩
      have := ih.1
      rw [hp] at this
      simpa using this
    | dequeue x rest hq hc => exact ih
    | consumerExit hc => exact ih

/-- C1 -- In every interleaving of the shielded runv3 execution with its
consumer — including any at which the client disconnects and the consumer
teardown runs `pump_task.cancel()` — once no step remains enabled, the pump
has run to completion and has produced every event of the execution: the
teardown runs `pump_task.cancel()` — once no step remains enabled, the
pump has run to completion and has produced every event of the execution: the
consumer teardown never stops the producer before it finishes. -/
theorem runv3_shield_producer_completes (events : List Ev) (s : PumpState)
    (h : PumpReach (initPump events) s) (hterm : ∀ t, ¬ PumpStep s t) :
    s.pumpDone = true ∧ s.produced = events := by
  have hinv := pump_invariant events s h
  cases hd : s.pumpDone with
  | true =>
    refine ⟨rfl, ?_⟩
    have hp := hinv.2 hd
    have := hinv.1
    rw [hp] at this
    simpa using this
  | false =>
    exfalso
    cases hp : s.pending with
    | nil => exact hterm _ (PumpStep.finishPump s hp hd)
    | cons e rest => exact hterm _ (PumpStep.produce s e rest hp hd)

/-- A run of the state machine on one event: the pump produces it and
finishes, then the consumer exits (its teardown finds the pump already done);
the resulting state is terminal. -/
def pumpFinal : PumpState :=
  ⟨[], [sampleEv1], [some sampleEv1, none], true, false, false⟩

theorem runv3_shield_producer_completes_w :
    pumpFinal.pumpDone = true ∧ pumpFinal.produced = [sampleEv1] := by
  have hreach : PumpReach (initPump [sampleEv1]) pumpFinal := by
    refine PumpReach.tail (PumpReach.tail (PumpReach.tail (PumpReach.refl _)
      (PumpStep.produce _ sampleEv1 [] rfl rfl)) (PumpStep.finishPump _ rfl rfl))
      (PumpStep.consumerExit _ rfl)
  refine runv3_shield_producer_completes [sampleEv1] pumpFinal hreach ?_
  intro t ht
  cases ht with
  | produce e rest hp hd => simp [pumpFinal] at hd
  | finishPump hp hd => simp [pumpFinal] at hd
  | dequeue x rest hq hc => simp [pumpFinal] at hc
  | consumerExit hc => simp [pumpFinal] at hc

/-- An inbound duplex (websocket) text message as seen by `process_messages`:
either it parses under `LiveRequest.model_validate_json` into a live request
(kept abstract as a string), or validation raises `ValidationError`. -/
inductive InMsg where
  | valid (req : String)
  | invalid (raw : String)
deriving DecidableEq, Repr

/-- How the receiver task ends: `validationCaught` — the loop was exited by a
`ValidationError`, which the surrounding `except ValidationError` clause logs,
and the task completes normally; `socketRaised` — `websocket.receive_text`
raised (e.g. `WebSocketDisconnect`) after the listed messages, which is not
caught inside `process_messages` and makes the task finish with an
exception. -/
inductive RecvExit where
  | validationCaught
  | socketRaised
deriving DecidableEq, Repr

/-- `process_messages` over the inbound messages received before the socket
fails: the `try` block wraps the whole `while True` loop, so each valid
message is forwarded to `live_request_queue.send`, and the first invalid one
raises `ValidationError` out of the loop into the `except` clause. Returns the
forwarded live requests and how the task ended. -/
def process_messages : List InMsg → List String × RecvExit
  | [] => ([], RecvExit.socketRaised)
  | InMsg.valid r :: rest =>
    let p := process_messages rest
    (r :: p.fst, p.snd)
  | InMsg.invalid _ :: _ => ([], RecvExit.validationCaught)

/-- Whether the exit of the receiver terminates the session: `asyncio.wait` with
`return_when=FIRST_EXCEPTION` returns (and `agent_live_run` tears the session
down) when a task finishes by raising; a task completing normally does not end
the wait while the forwarder still runs. -/
def receiverEndsSession : RecvExit → Bool
  | RecvExit.validationCaught => false
  | RecvExit.socketRaised => true

/-- The live requests of the longest all-valid prefix of the inbound
messages. -/
def validPrefixSends : List InMsg → List String
  | InMsg.valid r :: rest => r :: validPrefixSends rest
  | _ => []

/-- C3 counterexample -- an invalid message followed by a well-formed one: the
well-formed message is not forwarded into the input queue of the execution
(nothing
is forwarded), contradicting the claim that the receiver keeps reading after a
validation failure. -/
theorem duplex_invalid_message_cex :
    (process_messages [InMsg.invalid "junk", InMsg.valid "good"]).fst = []
    ∧ "good" ∉ (process_messages [InMsg.invalid "junk", InMsg.valid "good"]).fst := by
  decide

/-- C3 amended -- A message that fails schema validation is logged and ends
the receive loop: the receiver forwards exactly the live requests of the
longest all-valid prefix of the inbound messages, and then — because the
`try`/`except ValidationError` wraps the whole loop — completes normally
without raising, so the session is not terminated by the validation failure
(only a raising task, i.e. a transport failure or unexpected exception, ends
the `asyncio.wait`); but no subsequent message, well-formed or not, is read or
forwarded. -/
theorem duplex_invalid_message_stops_receiver (msgs : List InMsg) :
    (process_messages msgs).fst = validPrefixSends msgs
    ∧ (∀ raw : String, InMsg.invalid raw ∈ msgs →
        (process_messages msgs).snd = RecvExit.validationCaught
        ∧ receiverEndsSession (process_messages msgs).snd = false) := by
  induction msgs with
  | nil => simp [process_messages, validPrefixSends]
  | cons m rest ih =>
    cases m with
    | valid r =>
      refine ⟨by simp [process_messages, validPrefixSends, ih.1], ?_⟩
      intro raw hmem
      have hmem2 : InMsg.invalid raw ∈ rest := by
        cases hmem with
        | tail _ h2 => exact h2
      have h3 := ih.2 raw hmem2
      simpa [process_messages, receiverEndsSession] using h3
    | invalid raw0 =>
      refine ⟨by simp [process_messages, validPrefixSends], ?_⟩
      intro raw hmem
      simp [process_messages, receiverEndsSession]

theorem duplex_invalid_message_stops_receiver_w :
    (process_messages [InMsg.valid "a", InMsg.invalid "junk", InMsg.valid "b"]).fst
      = validPrefixSends [InMsg.valid "a", InMsg.invalid "junk", InMsg.valid "b"]
    ∧ (process_messages [InMsg.valid "a", InMsg.invalid "junk", InMsg.valid "b"]).snd
        = RecvExit.validationCaught
    ∧ receiverEndsSession
        (process_messages [InMsg.valid "a", InMsg.invalid "junk", InMsg.valid "b"]).snd
      = false := by
  have h := duplex_invalid_message_stops_receiver
    [InMsg.valid "a", InMsg.invalid "junk", InMsg.valid "b"]
  have h2 := h.2 "junk" (by decide)
  exact ⟨h.1, h2.1, h2.2⟩

/-- Transport-level actions taken by `agent_live_run` on the websocket. -/
inductive WsAction where
  | accept
  | close (code : Nat) (reason : String)
  | sendText (payload : String)
deriving DecidableEq, Repr

/-- `WEBSOCKET_INTERNAL_ERROR_CODE = 1011` in `agent_live_run`, used when an
unexpected exception terminates the live session. -/
def WEBSOCKET_INTERNAL_ERROR_CODE : Nat := 1011

/-- The transport prefix of `agent_live_run`: the websocket is accepted
unconditionally first; only then is the session looked up, and a missing
session closes the connection with code 1002 and reason "Session not found".
An existing session proceeds to the duplex body (abstracted as `body`). -/
def agent_live_run_transport (sessionExists : Bool) (body : List WsAction) : List WsAction :=
  WsAction.accept ::
    (if sessionExists then body else [WsAction.close 1002 "Session not found"])

/-- C7 -- A duplex connection attempt for a missing session is accepted at the
transport level and then closed with close code 1002 ("Session not found");
the first transport action of every connection attempt is the accept, and
1002 is
distinct from the internal-error close code 1011 and from normal closure
(1000). -/
theorem duplex_session_not_found_close (body : List WsAction) (ex : Bool) :
    agent_live_run_transport false body
      = [WsAction.accept, WsAction.close 1002 "Session not found"]
    ∧ (agent_live_run_transport ex body).head? = some WsAction.accept
    ∧ 1002 ≠ WEBSOCKET_INTERNAL_ERROR_CODE
    ∧ 1002 ≠ 1000 := by
  refine ⟨rfl, rfl, by decide, by decide⟩

/-- State touched by the agent-reload path: the module global `_app_name`
(last application fetched through the session endpoint), the module global
`_runners_to_clean` (a set of application names), the agent loader cache,
the per-application runner cache `runner_dict` (runners modelled as numeric
tags), and the runners handed to `cleanup.close_runners` so far
(`runner_dict.pop(app_name, None)` may hand over `None`). -/
structure ReloadState where
  lastSessionApp : String
  runnersToClean : List String
  agentCache : List String
  runnerDict : List (String × Nat)
  closedRunners : List (Option Nat)
deriving DecidableEq, Repr

/-- Python `set.add`: idempotent insertion. -/
def setInsert (l : List String) (a : String) : List String :=
  if a ∈ l then l else a :: l

/-- Python `str.endswith(suffix)`: suffix test on the character sequence. -/
def strEndsWith (s suffix : String) : Bool :=
  suffix.data.isSuffixOf s.data

/-- `AgentChangeEventHandler.on_modified`: ignores paths not ending in `.py`
or `.yaml`; otherwise removes the module-global `_app_name` from the agent
loader cache (a keyed dict: removal drops every entry for that key) and adds
`_app_name` to `_runners_to_clean`. -/
def on_modified (s : ReloadState) (srcPath : String) : ReloadState :=
  if strEndsWith srcPath ".py" || strEndsWith srcPath ".yaml" then
    { s with
      agentCache := s.agentCache.filter (fun a => a != s.lastSessionApp),
      runnersToClean := setInsert s.runnersToClean s.lastSessionApp }
  else s

/-- The `global _app_name; _app_name = app_name` assignment in the
`get_session` endpoint. -/
def recordSessionApp (s : ReloadState) (appName : String) : ReloadState :=
  { s with lastSessionApp := appName }

/-- `_get_runner_async`: when the application is marked in
`_runners_to_clean`, unmark it, pop its runner from `runner_dict` and hand it
to `cleanup.close_runners`; then return the cached runner, or build a fresh
one and cache it. -/
def get_runner (s : ReloadState) (app : String) (freshTag : Nat) : ReloadState × Nat :=
  let s1 :=
    if app ∈ s.runnersToClean then
      { s with
        runnersToClean := s.runnersToClean.erase app,
        runnerDict := s.runnerDict.filter (fun p => p.fst != app),
        closedRunners := s.closedRunners ++ [s.runnerDict.lookup app] }
    else s
  match s1.runnerDict.lookup app with
  | some r => (s1, r)
  | none => ({ s1 with runnerDict := s1.runnerDict ++ [(app, freshTag)] }, freshTag)

lemma lookup_filter_ne_self {β : Type} (l : List (String × β)) (a : String) :
    (l.filter (fun p => p.fst != a)).lookup a = none := by
  induction l with
  | nil => simp
  | cons hd tl ih =>
    by_cases h : hd.fst = a
    · simp [List.filter_cons, h, ih]
    · have hb : (hd.fst != a) = true := by simp [h]
      have hb2 : (a == hd.fst) = false := by
        simp only [beq_eq_false_iff_ne, ne_eq]
        exact fun he => h he.symm
      simp [List.filter_cons, hb, List.lookup, hb2, ih]

def reloadSample : ReloadState :=
  { lastSessionApp := "B", runnersToClean := [], agentCache := ["A", "B"],
    runnerDict := [("A", 0), ("B", 1)], closedRunners := [] }

/-- C5 counterexample -- a file-change notification for the agent source of
application "A"
agent source while the module global `_app_name` is "B" (the application most
recently fetched through the session endpoint): the handler marks "B" for
closure and does not mark "A", the application whose definition changed. -/
theorem reload_marks_last_fetched_app_cex :
    "A" ∉ (on_modified reloadSample "agents/A/agent.py").runnersToClean
    ∧ "B" ∈ (on_modified reloadSample "agents/A/agent.py").runnersToClean := by
  decide

/-- C5 amended -- A file-change notification for an agent source or config
file (`.py`/`.yaml`) marks for closure the runner of the application most
recently fetched through the session endpoint (the module global `_app_name`),
not necessarily the application whose file changed; marking is debounced per
identity (set insertion makes repeated notifications idempotent); a subsequent
runner fetch for a marked identity hands the stale cached runner to the
cleanup routine, unmarks the identity, and builds and returns a fresh
runner. -/
theorem reload_invalidation_amended (s : ReloadState) (p : String) (app : String)
    (freshTag : Nat) (hp : (strEndsWith p ".py" || strEndsWith p ".yaml") = true)
    (happ : app ∈ s.runnersToClean) :
    (on_modified s p).runnersToClean = setInsert s.runnersToClean s.lastSessionApp
    ∧ on_modified (on_modified s p) p = on_modified s p
    ∧ (get_runner s app freshTag).fst.closedRunners
        = s.closedRunners ++ [s.runnerDict.lookup app]
    ∧ (get_runner s app freshTag).fst.runnersToClean = s.runnersToClean.erase app
    ∧ (get_runner s app freshTag).snd = freshTag := by
  have hfilter : ∀ (l : List String) (a : String),
      (l.filter (fun x => x != a)).filter (fun x => x != a) = l.filter (fun x => x != a) := by
    intro l a
    rw [List.filter_filter]
    apply List.filter_congr
    intro x _
    cases h : (x != a) <;> simp [h]
  have h1 : ∀ (l : List String) (a : String), setInsert (setInsert l a) a = setInsert l a := by
    intro l a
    by_cases h : a ∈ l <;> simp [setInsert, h]
  refine ⟨by simp [on_modified, hp], ?_, ?_, ?_, ?_⟩
  · simp only [on_modified, hp, if_true]
    simp [hfilter, h1]
  · simp [get_runner, happ, lookup_filter_ne_self]
  · simp [get_runner, happ, lookup_filter_ne_self]
  · simp [get_runner, happ, lookup_filter_ne_self]

/-- `reloadSample` after one change notification: "B" is marked for closure. -/
def reloadMarked : ReloadState := on_modified reloadSample "agents/B/agent.py"

theorem reload_invalidation_amended_w :
    (on_modified reloadMarked "agents/B/agent.py").runnersToClean
      = setInsert reloadMarked.runnersToClean reloadMarked.lastSessionApp
    ∧ on_modified (on_modified reloadMarked "agents/B/agent.py") "agents/B/agent.py"
        = on_modified reloadMarked "agents/B/agent.py"
    ∧ (get_runner reloadMarked "B" 7).fst.closedRunners
        = reloadMarked.closedRunners ++ [reloadMarked.runnerDict.lookup "B"]
    ∧ (get_runner reloadMarked "B" 7).fst.runnersToClean
        = reloadMarked.runnersToClean.erase "B"
    ∧ (get_runner reloadMarked "B" 7).snd = 7 :=
  reload_invalidation_amended reloadMarked "agents/B/agent.py" "B" 7 (by decide) (by decide)

lemma filter_beq_filter_bne {β : Type} (l : List (String × β)) (i : String) :
    (l.filter (fun p => p.fst != i)).filter (fun p => p.fst == i) = [] := by
  induction l with
  | nil => rfl
  | cons hd tl ih =>
    by_cases h : hd.fst = i
    · have hb : (hd.fst != i) = false := by simp [h]
      simp [List.filter_cons, hb, ih]
    · have hb : (hd.fst != i) = true := by simp [h]
      have hb2 : (hd.fst == i) = false := by simp [h]
      simp [List.filter_cons, hb, hb2, ih]

/-- One eval case of an eval set, as selected by `run_eval`. -/
structure EvalCaseM where
  eval_id : String
deriving DecidableEq, Repr

/-- An eval set (`eval_sets_manager.get_eval_set`). -/
structure EvalSetM where
  eval_cases : List EvalCaseM
deriving DecidableEq, Repr

/-- The case-selection step of `run_eval`: a non-empty (truthy) `eval_ids`
keeps exactly the cases whose id appears in it; an empty `eval_ids` selects
every case in the set. -/
def selectEvalCases (evalSet : EvalSetM) (eval_ids : List String) : List EvalCaseM :=
  if !eval_ids.isEmpty then
    evalSet.eval_cases.filter (fun e => eval_ids.contains e.eval_id)
  else
    evalSet.eval_cases

/-- Modelled from the spec: `run_evals` (google.adk.cli.cli_eval, outside
src/) "for each case: replay turns ... score the resulting transcript ... and
yield a per-case result" — one result per selected case, in order, scoring
kept abstract. -/
def run_evals_model (score : EvalCaseM → Nat) (cases : List EvalCaseM) : List (String × Nat) :=
  cases.map (fun c => (c.eval_id, score c))

/-- Modelled from the spec: the external eval results store (outside src/),
keyed per evaluation case; "re-running the same case id overwrites rather than
appends". -/
def saveCaseResult (store : List (String × Nat)) (caseId : String) (r : Nat) :
    List (String × Nat) :=
  store.filter (fun p => p.fst != caseId) ++ [(caseId, r)]

/-- C8 -- With `eval_ids = []` every case of the eval set is scored exactly
once (one result per case id, assuming the case ids of the set are distinct);
with
a non-empty `eval_ids` exactly the cases whose id appears in `eval_ids` are
selected; and re-saving a result for the same case id leaves a single stored
entry holding the latest result. -/
theorem run_eval_selection_and_overwrite (s : EvalSetM) (ids : List String)
    (score : EvalCaseM → Nat) (store : List (String × Nat)) (i : String) (r1 r2 : Nat)
    (hnd : (s.eval_cases.map EvalCaseM.eval_id).Nodup) :
    (∀ c ∈ s.eval_cases,
      ((run_evals_model score (selectEvalCases s [])).map Prod.fst).count c.eval_id = 1)
    ∧ (ids ≠ [] → ∀ c : EvalCaseM,
        c ∈ selectEvalCases s ids ↔ c ∈ s.eval_cases ∧ c.eval_id ∈ ids)
    ∧ (saveCaseResult (saveCaseResult store i r1) i r2).filter (fun p => p.fst == i)
      = [(i, r2)] := by
  refine ⟨?_, ?_, ?_⟩
  · intro c hc
    have hmap : (run_evals_model score (selectEvalCases s [])).map Prod.fst
        = s.eval_cases.map EvalCaseM.eval_id := by
      simp [run_evals_model, selectEvalCases]
    rw [hmap]
    have hmem : c.eval_id ∈ s.eval_cases.map EvalCaseM.eval_id :=
      List.mem_map_of_mem EvalCaseM.eval_id hc
    exact List.count_eq_one_of_mem hnd hmem
  · intro hne c
    have hne2 : ids.isEmpty = false := by
      cases ids with
      | nil => exact absurd rfl hne
      | cons a l => rfl
    simp [selectEvalCases, hne2, List.mem_filter, List.contains, List.elem_iff]
  · have hstep : saveCaseResult (saveCaseResult store i r1) i r2
        = (store.filter (fun p => p.fst != i)).filter (fun p => p.fst != i) ++ [(i, r2)] := by
      simp [saveCaseResult, List.filter_append, List.filter]
    rw [hstep, List.filter_append,
      filter_beq_filter_bne (store.filter (fun p => p.fst != i)) i]
    simp [List.filter]

theorem run_eval_selection_and_overwrite_w :
    (∀ c ∈ (EvalSetM.mk [⟨"c1"⟩, ⟨"c2"⟩]).eval_cases,
      ((run_evals_model (fun _ => 0)
          (selectEvalCases (EvalSetM.mk [⟨"c1"⟩, ⟨"c2"⟩]) [])).map Prod.fst).count c.eval_id = 1)
    ∧ (["c2"] ≠ [] → ∀ c : EvalCaseM,
        c ∈ selectEvalCases (EvalSetM.mk [⟨"c1"⟩, ⟨"c2"⟩]) ["c2"] ↔
          c ∈ (EvalSetM.mk [⟨"c1"⟩, ⟨"c2"⟩]).eval_cases ∧ c.eval_id ∈ ["c2"])
    ∧ (saveCaseResult (saveCaseResult [] "c1" 3) "c1" 5).filter (fun p => p.fst == "c1")
      = [("c1", 5)] :=
  run_eval_selection_and_overwrite (EvalSetM.mk [⟨"c1"⟩, ⟨"c2"⟩]) ["c2"]
    (fun _ => 0) [] "c1" 3 5 (by decide)

/-- A completed diagnostic span as received by
`ApiServerSpanExporter.export`: name, attribute map, and span context ids. -/
structure SpanM where
  name : String
  attributes : List (String × String)
  trace_id : Nat
  span_id : Nat
deriving DecidableEq, Repr

/-- The stored value of `trace_dict[event_id]`: the span attributes plus the
added `trace_id` and `span_id` entries. -/
structure StoredTrace where
  attributes : List (String × String)
  trace_id : Nat
  span_id : Nat
deriving DecidableEq, Repr

/-- Python `str.startswith(prefix)`: prefix test on the character sequence. -/
def strStartsWith (s pre : String) : Bool :=
  pre.data.isPrefixOf s.data

/-- The span-name allow-list of `ApiServerSpanExporter.export`:
`call_llm`, `send_data`, or a name starting with `execute_tool`. -/
def allowListedName (n : String) : Bool :=
  n == "call_llm" || n == "send_data" || strStartsWith n "execute_tool"

/-- `attributes.get("gcp.vertex.agent.event_id", None)` followed by the
truthiness test: the event id under which a span is indexed, present only when
the attribute exists with a non-empty value. -/
def eventIdOf (sp : SpanM) : Option String :=
  match sp.attributes.lookup "gcp.vertex.agent.event_id" with
  | some v => if v = "" then none else some v
  | none => none

/-- Python dict assignment `trace_dict[eid] = v` on an association list:
any previous binding of the key is replaced. -/
def dictInsert (td : List (String × StoredTrace)) (eid : String) (v : StoredTrace) :
    List (String × StoredTrace) :=
  td.filter (fun p => p.fst != eid) ++ [(eid, v)]

/-- The per-span body of `ApiServerSpanExporter.export`: spans with an
allow-listed name and a truthy event-id attribute are indexed under that event
id; every other span leaves the dict unchanged. -/
def exportSpan (td : List (String × StoredTrace)) (sp : SpanM) :
    List (String × StoredTrace) :=
  if allowListedName sp.name then
    match eventIdOf sp with
    | some eid => dictInsert td eid ⟨sp.attributes, sp.trace_id, sp.span_id⟩
    | none => td
  else td

def exportSpans (td : List (String × StoredTrace)) (spans : List SpanM) :
    List (String × StoredTrace) :=
  spans.foldl exportSpan td

/-- The `/debug/trace/{event_id}` endpoint `get_trace_dict`:
`trace_dict.get(event_id, None)`, a `None` result becoming the 404
not-found response. -/
def get_trace_dict (td : List (String × StoredTrace)) (event_id : String) :
    Option StoredTrace :=
  td.lookup event_id

lemma lookup_filter_ne_other {β : Type} {a e : String} (h : a ≠ e)
    (l : List (String × β)) :
    (l.filter (fun p => p.fst != e)).lookup a = l.lookup a := by
  induction l with
  | nil => simp
  | cons hd tl ih =>
    by_cases hk : hd.fst = e
    · have hb : (hd.fst != e) = false := by simp [hk]
      have hb2 : (a == hd.fst) = false := by
        simp only [beq_eq_false_iff_ne, ne_eq]
        intro he
        exact h (he.trans hk)
      simp [List.filter_cons, hb, List.lookup, hb2, ih]
    · have hb : (hd.fst != e) = true := by simp [hk]
      by_cases ha : a = hd.fst
      · have hb2 : (a == hd.fst) = true := by simp [ha]
        simp [List.filter_cons, hb, List.lookup, hb2]
      · have hb2 : (a == hd.fst) = false := by simp [ha]
        simp [List.filter_cons, hb, List.lookup, hb2, ih]

lemma exportSpans_lookup (spans : List SpanM) :
    ∀ (td : List (String × StoredTrace)) (eid : String) (st : StoredTrace),
      (exportSpans td spans).lookup eid = some st →
      td.lookup eid = some st
      ∨ ∃ sp, sp ∈ spans ∧ allowListedName sp.name = true ∧ eventIdOf sp = some eid
          ∧ st = ⟨sp.attributes, sp.trace_id, sp.span_id⟩ := by
  induction spans with
  | nil => intro td eid st h; exact Or.inl h
  | cons sp rest ih =>
    intro td eid st h
    have h2 := ih (exportSpan td sp) eid st h
    cases h2 with
    | inr hr =>
      obtain ⟨sp2, hmem, hrest⟩ := hr
      exact Or.inr ⟨sp2, List.mem_cons_of_mem sp hmem, hrest⟩
    | inl hl =>
      by_cases hallow : allowListedName sp.name = true
      · cases heid : eventIdOf sp with
        | none => rw [exportSpan, if_pos hallow, heid] at hl; exact Or.inl hl
        | some e =>
          rw [exportSpan, if_pos hallow, heid] at hl
          by_cases he : eid = e
          · subst he
            have hlk : (dictInsert td eid ⟨sp.attributes, sp.trace_id, sp.span_id⟩).lookup eid
                = some ⟨sp.attributes, sp.trace_id, sp.span_id⟩ := by
              simp only [dictInsert]
              rw [List.lookup_append, lookup_filter_ne_self]
              simp [List.lookup]
            rw [hlk] at hl
            exact Or.inr ⟨sp, List.mem_cons_self sp rest, hallow, heid, by
              cases hl; rfl⟩
          · simp only [dictInsert] at hl
            rw [List.lookup_append, lookup_filter_ne_other he] at hl
            cases hcase : td.lookup eid with
            | some v =>
              rw [hcase] at hl
              simp only [Option.or] at hl
              exact Or.inl hl
            | none =>
              rw [hcase] at hl
              have hb : (eid == e) = false := by simp [he]
              simp [Option.or, List.lookup, hb] at hl
      · rw [exportSpan, if_neg hallow] at hl
        exact Or.inl hl

/-- C9 -- A trace lookup by event id on the dict built by the exporter can
only return the record of a span whose name is allow-listed (`call_llm`,
`send_data`, or `execute_tool*`) and which carried a truthy event-id
attribute; when no exported span matches the event id, the lookup yields the
not-found condition (`None`, answered as HTTP 404). -/
theorem trace_lookup_allowlisted_only (spans : List SpanM) (eid : String) :
    (∀ st : StoredTrace, get_trace_dict (exportSpans [] spans) eid = some st →
      ∃ sp, sp ∈ spans ∧ allowListedName sp.name = true ∧ eventIdOf sp = some eid
        ∧ st = ⟨sp.attributes, sp.trace_id, sp.span_id⟩)
    ∧ ((∀ sp ∈ spans, ¬(allowListedName sp.name = true ∧ eventIdOf sp = some eid)) →
        get_trace_dict (exportSpans [] spans) eid = none) := by
  constructor
  · intro st h
    have h2 := exportSpans_lookup spans [] eid st h
    cases h2 with
    | inl hl => simp [List.lookup] at hl
    | inr hr => exact hr
  · intro hno
    cases hcase : get_trace_dict (exportSpans [] spans) eid with
    | none => rfl
    | some st =>
      exfalso
      have h2 := exportSpans_lookup spans [] eid st hcase
      cases h2 with
      | inl hl => simp [List.lookup] at hl
      | inr hr =>
        obtain ⟨sp, hmem, hallow, heid, _⟩ := hr
        exact hno sp hmem ⟨hallow, heid⟩

def spanNoId : SpanM := { name := "call_llm", attributes := [], trace_id := 1, span_id := 2 }

def spanOtherName : SpanM :=
  { name := "other_span", attributes := [("gcp.vertex.agent.event_id", "ev1")],
    trace_id := 3, span_id := 4 }

theorem trace_lookup_allowlisted_only_w :
    get_trace_dict (exportSpans [] [spanNoId, spanOtherName]) "ev1" = none :=
  (trace_lookup_allowlisted_only [spanNoId, spanOtherName] "ev1").2 (by decide)

/-- A stored session: application identity, user identity, session id. -/
structure SessionM where
  appName : String
  userId : String
  id : String
deriving DecidableEq, Repr

/-- `EVAL_SESSION_ID_PREFIX` imported from `google.adk.cli.cli_eval`: the
reserved prefix of ids of sessions generated during evaluation runs. -/
def EVAL_SESSION_ID_PREFIX : String := "___eval___session___"

/-- Modelled from the spec: the external session store
(`session_service.list_sessions`, outside src/) returns all stored sessions of
the given application and user. -/
def storeListSessions (store : List SessionM) (app user : String) : List SessionM :=
  store.filter (fun s => s.appName == app && s.userId == user)

/-- Modelled from the spec: the external session store
(`session_service.get_session`, outside src/) returns the stored session with
the given application, user and session id when present. -/
def storeGetSession (store : List SessionM) (app user sid : String) : Option SessionM :=
  store.find? (fun s => s.appName == app && s.userId == user && s.id == sid)

/-- The `list_sessions` endpoint: the store listing with the sessions
generated as part of eval runs (id starting with `EVAL_SESSION_ID_PREFIX`)
removed. -/
def list_sessions (store : List SessionM) (app user : String) : List SessionM :=
  (storeListSessions store app user).filter
    (fun s => !(strStartsWith s.id EVAL_SESSION_ID_PREFIX))

/-- The `get_session` endpoint: a plain store lookup; no eval-prefix filter is
applied (a missing session becomes the 404 response). -/
def get_session_endpoint (store : List SessionM) (app user sid : String) : Option SessionM :=
  storeGetSession store app user sid

/-- C10 -- The session listing never returns a session whose id starts with
the reserved evaluation-session prefix; yet any stored eval session of the
queried application and user, while absent from the listing, is still
retrievable individually through the get-session endpoint. -/
theorem list_sessions_filters_eval_sessions (store : List SessionM) (app user : String) :
    (∀ s ∈ list_sessions store app user, strStartsWith s.id EVAL_SESSION_ID_PREFIX = false)
    ∧ (∀ s ∈ store, s.appName = app → s.userId = user →
        strStartsWith s.id EVAL_SESSION_ID_PREFIX = true →
        s ∉ list_sessions store app user
        ∧ ∃ t : SessionM, get_session_endpoint store app user s.id = some t ∧ t.id = s.id) := by
  constructor
  · intro s hs
    have h2 := (List.mem_filter.mp hs).2
    cases h : strStartsWith s.id EVAL_SESSION_ID_PREFIX with
    | false => rfl
    | true => rw [h] at h2; simp at h2
  · intro s hs happ huser hpre
    constructor
    · intro hmem
      have h2 := (List.mem_filter.mp hmem).2
      rw [hpre] at h2
      simp at h2
    · have hpred : (fun t : SessionM => t.appName == app && t.userId == user && t.id == s.id) s
          = true := by
        simp [happ, huser]
      have hsome : (store.find?
          (fun t : SessionM => t.appName == app && t.userId == user && t.id == s.id)).isSome := by
        rw [List.find?_isSome]
        exact ⟨s, hs, hpred⟩
      cases hfind : store.find?
          (fun t : SessionM => t.appName == app && t.userId == user && t.id == s.id) with
      | none => rw [hfind] at hsome; simp at hsome
      | some t =>
        refine ⟨t, hfind, ?_⟩
        have hp := List.find?_some hfind
        have hid : (t.id == s.id) = true := by
          simp only [Bool.and_eq_true] at hp
          exact hp.2
        exact eq_of_beq hid

def evalSession : SessionM :=
  { appName := "app1", userId := "u1", id := "___eval___session___123" }

def plainSession : SessionM := { appName := "app1", userId := "u1", id := "s123" }

theorem list_sessions_filters_eval_sessions_w :
    evalSession ∉ list_sessions [plainSession, evalSession] "app1" "u1"
    ∧ ∃ t : SessionM,
        get_session_endpoint [plainSession, evalSession] "app1" "u1" evalSession.id = some t
        ∧ t.id = evalSession.id :=
  (list_sessions_filters_eval_sessions [plainSession, evalSession] "app1" "u1").2
    evalSession (by decide) rfl rfl (by decide)

end ArthaGateway
